import Mathlib

/-!
Verification of the movie moderation service in `src/main.py`.

The service exposes three HTTP handlers over two S3 buckets:

* `submit_movie` (POST /movies/): generates a UUID, serializes the movie
  record with `json.dumps(movie.dict())` and writes it to the pending bucket
  under the key `{movie_id}.json`.
* `get_movies` (GET /movies/): lists every object of the final bucket,
  fetches each and returns the deserialized bodies in enumeration order.
* `approve_movie` (POST /approve_movie/{movie_id}): fetches the pending
  object, copies its body to the final bucket under the same key, deletes the
  pending copy, and maps any exception of the three storage calls to an
  HTTP 400 error with the detail "Movie not found or already approved.".

Modelling decisions:

* An S3 bucket is an association list `List (String × Body)` whose order is
  the bucket's enumeration order.  `put_object` overwrites in place or
  appends, `get_object` is a lookup returning `Option` (with `none` standing
  for the `NoSuchKey` exception), `delete_object` removes the key and
  succeeds even when the key is absent, exactly as S3 does.
* Object bodies are UTF-8 JSON strings in the real service; we represent a
  body by its parsed JSON value (`Body`, a list of string-keyed fields), so
  `json.dumps` and `json.loads` become the identity on this representation
  and "raw content unchanged" means equality of `Body` values.
* `uuid.uuid4()` is nondeterministic; the generated identifier is passed to
  `submit_movie` as an explicit argument, and its uniqueness (which the real
  generator provides probabilistically) appears as a freshness hypothesis
  where a claim needs it.
* Transient storage failures are modelled by the `Faults` record: each of
  the three storage calls inside `approve_movie` may be told to raise.  The
  happy path is `noFaults`.
-/

/-- A JSON value as stored in a movie object body: the service only ever
stores strings and integers. -/
inductive JVal where
  | str : String → JVal
  | int : Int → JVal
deriving DecidableEq

/-- A parsed JSON object body: an ordered list of named fields.  This is the
representation of the UTF-8 JSON string stored in a bucket. -/
abbrev Body := List (String × JVal)

/-- An S3 bucket: keyed objects in enumeration order. -/
abbrev Bucket := List (String × Body)

/-- `put_object`: overwrite the object at `k` in place, or append a new one.
S3 put replaces the previous version of the key. -/
def putObject (c : Bucket) (k : String) (b : Body) : Bucket :=
  match c with
  | [] => [(k, b)]
  | (k', b') :: rest => if k' = k then (k, b) :: rest else (k', b') :: putObject rest k b

/-- `get_object`: look up the object at `k`; `none` models the `NoSuchKey`
exception raised when the key is absent. -/
def getObject (c : Bucket) (k : String) : Option Body :=
  match c with
  | [] => none
  | (k', b) :: rest => if k' = k then some b else getObject rest k

/-- `delete_object`: remove the object at `k`; S3 delete succeeds whether or
not the key exists. -/
def deleteObject (c : Bucket) (k : String) : Bucket :=
  c.filter (fun kv => kv.1 ≠ k)

/-- The keys of a bucket, in enumeration order (`list_objects_v2`). -/
def bucketKeys (c : Bucket) : List String :=
  c.map Prod.fst

/-- The state of the object store: the pending bucket `movies-stage` and the
final bucket `movies-final`.  All service state lives here. -/
structure Store where
  pending : Bucket
  final : Bucket
deriving DecidableEq

/-- The empty store: both buckets hold no objects. -/
def Store.empty : Store := ⟨[], []⟩

/-- The movie record validated by the `Movie` pydantic model: fields
`title : str`, `year : int`, `genre : str`. -/
structure Movie where
  title : String
  year : Int
  genre : String
deriving DecidableEq

/-- `movie.dict()` followed by `json.dumps`: the serialized body holds
exactly the three declared fields, in declaration order. -/
def movieDict (m : Movie) : Body :=
  [("title", JVal.str m.title), ("year", JVal.int m.year), ("genre", JVal.str m.genre)]

/-- The storage key derived from a movie identifier: `f'{movie_id}.json'`. -/
def movieKey (movie_id : String) : String :=
  movie_id ++ ".json"

/-- The JSON envelope returned by `submit_movie`. -/
structure SubmitResponse where
  message : String
  movie_id : String
deriving DecidableEq

/-- `submit_movie`: write the serialized record to the pending bucket under
`{movie_id}.json` and return the confirmation envelope.  `movie_id` is the
value produced by `uuid.uuid4()`, passed explicitly because the generator is
nondeterministic. -/
def submit_movie (movie : Movie) (movie_id : String) (s : Store) : SubmitResponse × Store :=
  let movie_data := movieDict movie
  let s' : Store := { s with pending := putObject s.pending (movieKey movie_id) movie_data }
  ({ message := "Movie submitted for approval.", movie_id := movie_id }, s')

/-- The loop body of `get_movies`: fetch each listed key from the final
bucket; an absent key raises, aborting the whole listing (`none`). -/
def getMoviesLoop (c : Bucket) : List String → Option (List Body)
  | [] => some []
  | k :: ks =>
    match getObject c k with
    | none => none
    | some b => (getMoviesLoop c ks).map (fun rest => b :: rest)

/-- `get_movies`: enumerate the final bucket, fetch and deserialize every
object, in enumeration order.  `none` models an unhandled storage exception
surfacing as a 5xx error. -/
def get_movies (s : Store) : Option (List Body) :=
  getMoviesLoop s.final (bucketKeys s.final)

/-- Fault injection for the three storage calls inside `approve_movie`: a
`true` flag makes that call raise a transient storage exception. -/
structure Faults where
  getFails : Bool
  putFails : Bool
  deleteFails : Bool
deriving DecidableEq

/-- The fault-free environment: every storage call succeeds normally. -/
def noFaults : Faults := ⟨false, false, false⟩

/-- The outcome of `approve_movie`: the success envelope, or the
`HTTPException(status_code, detail)` raised by the handler. -/
inductive ApproveResult where
  | ok : String → ApproveResult
  | httpError : Nat → String → ApproveResult
deriving DecidableEq

/-- `approve_movie`: fetch `{movie_id}.json` from pending, copy its raw body
to final under the same key, delete the pending copy, and return the
confirmation; any exception in the `try` block (absent key or injected
transient failure) is caught and mapped to
`HTTPException(400, "Movie not found or already approved.")`.  A call that
raises leaves the state of that call untouched, so a delete failure keeps
the already-written final copy. -/
def approve_movie (f : Faults) (movie_id : String) (s : Store) : ApproveResult × Store :=
  let key := movieKey movie_id
  match (if f.getFails then none else getObject s.pending key) with
  | none => (ApproveResult.httpError 400 "Movie not found or already approved.", s)
  | some movie_data =>
    if f.putFails then
      (ApproveResult.httpError 400 "Movie not found or already approved.", s)
    else
      let s1 : Store := { s with final := putObject s.final key movie_data }
      if f.deleteFails then
        (ApproveResult.httpError 400 "Movie not found or already approved.", s1)
      else
        (ApproveResult.ok "Movie approved and moved to final bucket.",
          { s1 with pending := deleteObject s1.pending key })

/-- States reachable from empty buckets by sequential, fault-free `submit`
and `approve` calls (`list_final` reads no state, so it needs no step).  The
freshness hypotheses on the submit step model the uniqueness of
`uuid.uuid4()`: a fresh identifier has never been used as a key before. -/
inductive Reachable : Store → Prop where
  | init : Reachable Store.empty
  | submit (m : Movie) (id : String) (s : Store) :
      Reachable s →
      movieKey id ∉ bucketKeys s.pending →
      movieKey id ∉ bucketKeys s.final →
      Reachable (submit_movie m id s).2
  | approve (id : String) (s : Store) :
      Reachable s →
      Reachable (approve_movie noFaults id s).2

/-- States reachable from empty buckets using `submit` alone: the executions
of an approval-free prefix of a run. -/
inductive ReachableNoApprove : Store → Prop where
  | init : ReachableNoApprove Store.empty
  | submit (m : Movie) (id : String) (s : Store) :
      ReachableNoApprove s →
      ReachableNoApprove (submit_movie m id s).2


/-- Every body stored in a bucket is the serialization of some movie record.
This holds for both buckets in every reachable state, because the only write
paths are `submit_movie` (which stores `movieDict m`) and `approve_movie`
(which copies an existing body). -/
def MovieBodies (c : Bucket) : Prop :=
  ∀ kv ∈ c, ∃ m : Movie, kv.2 = movieDict m

/-- The store invariant maintained by every reachable state: both key lists
are duplicate-free, no key lives in both buckets at once, and every stored
body is a serialized movie record. -/
def StoreInv (s : Store) : Prop :=
  (bucketKeys s.pending).Nodup ∧ (bucketKeys s.final).Nodup ∧
    (∀ k, k ∈ bucketKeys s.pending → k ∉ bucketKeys s.final) ∧
    MovieBodies s.pending ∧ MovieBodies s.final

/-! Basic lemmas about the bucket primitives. -/

theorem getObject_putObject_self (c : Bucket) (k : String) (b : Body) :
    getObject (putObject c k b) k = some b := by
  induction c with
  | nil => simp [putObject, getObject]
  | cons kv rest ih =>
    obtain ⟨k', b'⟩ := kv
    by_cases h : k' = k
    · simp [putObject, getObject, h]
    · simp [putObject, getObject, h, ih]

theorem getObject_putObject_ne (c : Bucket) (k k' : String) (b : Body) (h : k' ≠ k) :
    getObject (putObject c k b) k' = getObject c k' := by
  induction c with
  | nil => simp [putObject, getObject, Ne.symm h]
  | cons kv rest ih =>
    obtain ⟨k₀, b₀⟩ := kv
    by_cases h0 : k₀ = k
    · subst h0
      simp [putObject, getObject, Ne.symm h]
    · by_cases h1 : k₀ = k'
      · simp [putObject, getObject, h0, h1, h]
      · simp [putObject, getObject, h0, h1, ih]

theorem getObject_deleteObject_self (c : Bucket) (k : String) :
    getObject (deleteObject c k) k = none := by
  induction c with
  | nil => simp [deleteObject, getObject]
  | cons kv rest ih =>
    obtain ⟨k₀, b₀⟩ := kv
    by_cases h0 : k₀ = k
    · simpa [deleteObject, List.filter_cons, h0] using ih
    · simpa [deleteObject, List.filter_cons, getObject, h0] using ih

theorem getObject_deleteObject_ne (c : Bucket) (k k' : String) (h : k' ≠ k) :
    getObject (deleteObject c k) k' = getObject c k' := by
  simp only [deleteObject]
  induction c with
  | nil => simp [getObject]
  | cons kv rest ih =>
    obtain ⟨k₀, b₀⟩ := kv
    simp only [decide_not] at ih
    by_cases h0 : k₀ = k
    · simp [List.filter_cons, getObject, h0, Ne.symm h, ih]
    · by_cases h1 : k₀ = k'
      · simp [List.filter_cons, getObject, h0, h1, h]
      · simp [List.filter_cons, getObject, h0, h1, ih]

theorem getObject_mem (c : Bucket) (k : String) (b : Body)
    (h : getObject c k = some b) : (k, b) ∈ c := by
  induction c with
  | nil => simp [getObject] at h
  | cons kv rest ih =>
    obtain ⟨k₀, b₀⟩ := kv
    by_cases h0 : k₀ = k
    · subst h0
      simp [getObject] at h
      simp [h]
    · simp [getObject, h0] at h
      exact List.mem_cons_of_mem _ (ih h)

theorem mem_bucketKeys_iff (c : Bucket) (k : String) :
    k ∈ bucketKeys c ↔ getObject c k ≠ none := by
  induction c with
  | nil => simp [bucketKeys, getObject]
  | cons kv rest ih =>
    obtain ⟨k₀, b₀⟩ := kv
    by_cases h0 : k₀ = k
    · subst h0
      simp [bucketKeys, getObject]
    · have hg : getObject ((k₀, b₀) :: rest) k = getObject rest k := by
        simp [getObject, h0]
      have hb : bucketKeys ((k₀, b₀) :: rest) = k₀ :: bucketKeys rest := rfl
      rw [hg, hb, List.mem_cons, ih]
      simp [Ne.symm h0]

theorem mem_bucketKeys_putObject (c : Bucket) (k k' : String) (b : Body) :
    k' ∈ bucketKeys (putObject c k b) ↔ k' ∈ bucketKeys c ∨ k' = k := by
  by_cases h : k' = k
  · subst h
    simp [mem_bucketKeys_iff, getObject_putObject_self]
  · simp [mem_bucketKeys_iff, getObject_putObject_ne c k k' b h, h]

theorem mem_bucketKeys_deleteObject (c : Bucket) (k k' : String) :
    k' ∈ bucketKeys (deleteObject c k) ↔ k' ∈ bucketKeys c ∧ k' ≠ k := by
  by_cases h : k' = k
  · subst h
    simp [mem_bucketKeys_iff, getObject_deleteObject_self]
  · simp [mem_bucketKeys_iff, getObject_deleteObject_ne c k k' h, h]

theorem nodup_bucketKeys_putObject (c : Bucket) (k : String) (b : Body)
    (h : (bucketKeys c).Nodup) : (bucketKeys (putObject c k b)).Nodup := by
  induction c with
  | nil => simp [putObject, bucketKeys]
  | cons kv rest ih =>
    obtain ⟨k₀, b₀⟩ := kv
    simp only [bucketKeys, List.map_cons, List.nodup_cons] at h
    by_cases h0 : k₀ = k
    · have hput : putObject ((k₀, b₀) :: rest) k b = (k, b) :: rest := by
        simp [putObject, h0]
      rw [hput]
      simp only [bucketKeys, List.map_cons, List.nodup_cons]
      refine ⟨?_, h.2⟩
      rw [← h0]
      exact h.1
    · simp only [putObject, if_neg h0, bucketKeys, List.map_cons, List.nodup_cons]
      refine ⟨?_, ih h.2⟩
      intro hk
      rcases (mem_bucketKeys_putObject rest k k₀ b).1 hk with hmem | heq
      · exact h.1 hmem
      · exact h0 heq

theorem nodup_bucketKeys_deleteObject (c : Bucket) (k : String)
    (h : (bucketKeys c).Nodup) : (bucketKeys (deleteObject c k)).Nodup := by
  have hsub : List.Sublist (bucketKeys (deleteObject c k)) (bucketKeys c) :=
    List.Sublist.map Prod.fst (List.filter_sublist c)
  exact List.Nodup.sublist hsub h

theorem putObject_not_mem_eq_append (c : Bucket) (k : String) (b : Body)
    (h : k ∉ bucketKeys c) : putObject c k b = c ++ [(k, b)] := by
  induction c with
  | nil => simp [putObject]
  | cons kv rest ih =>
    obtain ⟨k₀, b₀⟩ := kv
    simp only [bucketKeys, List.map_cons, List.mem_cons, not_or] at h
    have h0 : k₀ ≠ k := fun hk => h.1 hk.symm
    simp only [putObject, if_neg h0, List.cons_append]
    exact congrArg _ (ih h.2)

/-! Computation lemmas for the three handlers. -/

theorem submit_movie_eq (m : Movie) (id : String) (s : Store) :
    submit_movie m id s =
      ({ message := "Movie submitted for approval.", movie_id := id },
        { pending := putObject s.pending (movieKey id) (movieDict m), final := s.final }) :=
  rfl

theorem approve_movie_none (id : String) (s : Store)
    (h : getObject s.pending (movieKey id) = none) :
    approve_movie noFaults id s =
      (ApproveResult.httpError 400 "Movie not found or already approved.", s) := by
  simp [approve_movie, noFaults, h]

theorem approve_movie_some (id : String) (s : Store) (b : Body)
    (h : getObject s.pending (movieKey id) = some b) :
    approve_movie noFaults id s =
      (ApproveResult.ok "Movie approved and moved to final bucket.",
        { pending := deleteObject s.pending (movieKey id),
          final := putObject s.final (movieKey id) b }) := by
  simp [approve_movie, noFaults, h]

/-! Lemmas about the listing loop of `get_movies`. -/

theorem getObject_of_mem_nodup (c : Bucket) (k : String) (b : Body)
    (hnd : (bucketKeys c).Nodup) (hmem : (k, b) ∈ c) : getObject c k = some b := by
  induction c with
  | nil => simp at hmem
  | cons kv rest ih =>
    obtain ⟨k₀, b₀⟩ := kv
    simp only [bucketKeys, List.map_cons, List.nodup_cons] at hnd
    rcases List.mem_cons.1 hmem with heq | hmem'
    · obtain ⟨hk, hb⟩ := Prod.mk.injEq .. ▸ heq
      simp [getObject, hk.symm, hb]
    · have hk : k₀ ≠ k := by
        intro hk
        subst hk
        exact hnd.1 (List.mem_map_of_mem Prod.fst hmem')
      simp [getObject, hk, ih hnd.2 hmem']

theorem getMoviesLoop_resolves (c : Bucket) (d : Bucket)
    (h : ∀ kv ∈ d, getObject c kv.1 = some kv.2) :
    getMoviesLoop c (bucketKeys d) = some (d.map Prod.snd) := by
  induction d with
  | nil => simp [bucketKeys, getMoviesLoop]
  | cons kv rest ih =>
    obtain ⟨k₀, b₀⟩ := kv
    have hhead : getObject c k₀ = some b₀ := h (k₀, b₀) (List.mem_cons_self _ _)
    have hrest : ∀ kv ∈ rest, getObject c kv.1 = some kv.2 :=
      fun kv hkv => h kv (List.mem_cons_of_mem _ hkv)
    have ih' := ih hrest
    simp only [bucketKeys] at ih'
    simp [bucketKeys, getMoviesLoop, hhead, ih']

theorem get_movies_of_nodup (s : Store) (hnd : (bucketKeys s.final).Nodup) :
    get_movies s = some (s.final.map Prod.snd) := by
  have h : ∀ kv ∈ s.final, getObject s.final kv.1 = some kv.2 := by
    intro kv hkv
    exact getObject_of_mem_nodup s.final kv.1 kv.2 hnd hkv
  exact getMoviesLoop_resolves s.final s.final h

/-! Preservation lemmas for the stored-body invariant. -/

theorem movieBodies_putObject (c : Bucket) (k : String) (b : Body)
    (hc : MovieBodies c) (hb : ∃ m : Movie, b = movieDict m) :
    MovieBodies (putObject c k b) := by
  induction c with
  | nil =>
    intro kv hkv
    simp [putObject] at hkv
    exact hkv ▸ hb
  | cons kv₀ rest ih =>
    obtain ⟨k₀, b₀⟩ := kv₀
    have hrest : MovieBodies rest := fun kv hkv => hc kv (List.mem_cons_of_mem _ hkv)
    intro kv hkv
    by_cases h0 : k₀ = k
    · simp only [putObject, if_pos h0] at hkv
      rcases List.mem_cons.1 hkv with heq | hmem
      · exact heq ▸ hb
      · exact hc kv (List.mem_cons_of_mem _ hmem)
    · simp only [putObject, if_neg h0] at hkv
      rcases List.mem_cons.1 hkv with heq | hmem
      · exact hc kv (heq ▸ List.mem_cons_self _ _)
      · exact ih hrest kv hmem

theorem movieBodies_deleteObject (c : Bucket) (k : String)
    (hc : MovieBodies c) : MovieBodies (deleteObject c k) :=
  fun kv hkv => hc kv (List.mem_of_mem_filter hkv)

/-! The store invariant holds in every reachable state. -/

theorem reachable_storeInv (s : Store) (h : Reachable s) : StoreInv s := by
  induction h with
  | init => simp [StoreInv, Store.empty, bucketKeys, MovieBodies]
  | submit m id s hr hp hf ih =>
    obtain ⟨hnd_p, hnd_f, hdisj, hmb_p, hmb_f⟩ := ih
    rw [submit_movie_eq]
    refine ⟨?_, hnd_f, ?_, ?_, hmb_f⟩
    · exact nodup_bucketKeys_putObject _ _ _ hnd_p
    · intro k hk
      rcases (mem_bucketKeys_putObject _ _ _ _).1 hk with hmem | heq
      · exact hdisj k hmem
      · rw [heq]
        exact hf
    · exact movieBodies_putObject _ _ _ hmb_p ⟨m, rfl⟩
  | approve id s hr ih =>
    obtain ⟨hnd_p, hnd_f, hdisj, hmb_p, hmb_f⟩ := ih
    cases hget : getObject s.pending (movieKey id) with
    | none =>
      rw [approve_movie_none id s hget]
      exact ⟨hnd_p, hnd_f, hdisj, hmb_p, hmb_f⟩
    | some b =>
      rw [approve_movie_some id s b hget]
      refine ⟨?_, ?_, ?_, ?_, ?_⟩
      · exact nodup_bucketKeys_deleteObject _ _ hnd_p
      · exact nodup_bucketKeys_putObject _ _ _ hnd_f
      · intro k hk
        obtain ⟨hkp, hkne⟩ := (mem_bucketKeys_deleteObject _ _ _).1 hk
        intro hkf
        rcases (mem_bucketKeys_putObject _ _ _ _).1 hkf with hmem | heq
        · exact hdisj k hkp hmem
        · exact hkne heq
      · exact movieBodies_deleteObject _ _ hmb_p
      · exact movieBodies_putObject _ _ _ hmb_f
          (hmb_p (movieKey id, b) (getObject_mem _ _ _ hget))

theorem reachableNoApprove_final (s : Store) (h : ReachableNoApprove s) : s.final = [] := by
  induction h with
  | init => rfl
  | submit m id s hr ih => simpa [submit_movie] using ih

/-! Claim theorems. -/

/-- C1: whenever the object `{movie_id}.json` is present in the pending
bucket, a fault-free `approve_movie` writes its body unchanged to the final
bucket under the same key, deletes the pending copy, and returns the
confirmation message "Movie approved and moved to final bucket.". -/
theorem approve_present_moves_and_confirms (id : String) (s : Store) (b : Body)
    (h : getObject s.pending (movieKey id) = some b) :
    (approve_movie noFaults id s).1
        = ApproveResult.ok "Movie approved and moved to final bucket." ∧
      getObject (approve_movie noFaults id s).2.final (movieKey id) = some b ∧
      getObject (approve_movie noFaults id s).2.pending (movieKey id) = none := by
  rw [approve_movie_some id s b h]
  exact ⟨rfl, getObject_putObject_self _ _ _, getObject_deleteObject_self _ _⟩

/-- Witness for C1: a concrete store holding one pending movie. -/
theorem approve_present_moves_and_confirms_witness :
    (approve_movie noFaults "m1"
          ⟨[(movieKey "m1", movieDict ⟨"Dune", 1984, "SciFi"⟩)], []⟩).1
        = ApproveResult.ok "Movie approved and moved to final bucket." ∧
      getObject (approve_movie noFaults "m1"
          ⟨[(movieKey "m1", movieDict ⟨"Dune", 1984, "SciFi"⟩)], []⟩).2.final (movieKey "m1")
        = some (movieDict ⟨"Dune", 1984, "SciFi"⟩) ∧
      getObject (approve_movie noFaults "m1"
          ⟨[(movieKey "m1", movieDict ⟨"Dune", 1984, "SciFi"⟩)], []⟩).2.pending (movieKey "m1")
        = none :=
  approve_present_moves_and_confirms "m1" _ _ (by decide)

/-- C2: approving an identifier with no object in the pending bucket fails
with an HTTP 400 client error whose detail carries the fixed message
"not found or already approved". -/
theorem approve_absent_client_error (id : String) (s : Store)
    (h : getObject s.pending (movieKey id) = none) :
    (approve_movie noFaults id s).1
      = ApproveResult.httpError 400 ("Movie " ++ "not found or already approved" ++ ".") := by
  rw [approve_movie_none id s h]
  rfl

/-- Witness for C2: approving on the empty store. -/
theorem approve_absent_client_error_witness :
    (approve_movie noFaults "ghost" Store.empty).1
      = ApproveResult.httpError 400 ("Movie " ++ "not found or already approved" ++ ".") :=
  approve_absent_client_error "ghost" Store.empty rfl

/-- C10: when approve fails because the pending object is absent, the error
path performs no writes or deletes: the whole store is returned unchanged. -/
theorem approve_absent_leaves_store_unchanged (id : String) (s : Store)
    (h : getObject s.pending (movieKey id) = none) :
    approve_movie noFaults id s
      = (ApproveResult.httpError 400 "Movie not found or already approved.", s) :=
  approve_movie_none id s h

/-- Witness for C10: a store whose pending bucket lacks the requested key
and whose final bucket is nonempty is returned untouched. -/
theorem approve_absent_leaves_store_unchanged_witness :
    approve_movie noFaults "ghost"
        ⟨[], [(movieKey "m1", movieDict ⟨"Dune", 1984, "SciFi"⟩)]⟩
      = (ApproveResult.httpError 400 "Movie not found or already approved.",
          ⟨[], [(movieKey "m1", movieDict ⟨"Dune", 1984, "SciFi"⟩)]⟩) :=
  approve_absent_leaves_store_unchanged "ghost" _ rfl

/-- C3: after a fault-free approve of a record pending under `id`, the
record's body appears in the sequence returned by `get_movies`, and a second
approve of the same identifier fails with the HTTP 400 Not Found error. -/
theorem approve_then_listed_and_second_approve_fails (id : String) (s : Store) (b : Body)
    (hpend : getObject s.pending (movieKey id) = some b)
    (hnd : (bucketKeys s.final).Nodup) :
    ∃ l, get_movies (approve_movie noFaults id s).2 = some l ∧ b ∈ l ∧
      (approve_movie noFaults id (approve_movie noFaults id s).2).1
        = ApproveResult.httpError 400 "Movie not found or already approved." := by
  rw [approve_movie_some id s b hpend]
  have hnd' : (bucketKeys (putObject s.final (movieKey id) b)).Nodup :=
    nodup_bucketKeys_putObject _ _ _ hnd
  refine ⟨(putObject s.final (movieKey id) b).map Prod.snd,
    get_movies_of_nodup _ hnd', ?_, ?_⟩
  · have hmem : (movieKey id, b) ∈ putObject s.final (movieKey id) b :=
      getObject_mem _ _ _ (getObject_putObject_self _ _ _)
    exact List.mem_map_of_mem Prod.snd hmem
  · have hnone : getObject (deleteObject s.pending (movieKey id)) (movieKey id) = none :=
      getObject_deleteObject_self _ _
    rw [approve_movie_none id _ hnone]

/-- Witness for C3: one pending movie, empty final bucket. -/
theorem approve_then_listed_and_second_approve_fails_witness :
    ∃ l, get_movies (approve_movie noFaults "m1"
        ⟨[(movieKey "m1", movieDict ⟨"Dune", 1984, "SciFi"⟩)], []⟩).2 = some l ∧
      movieDict ⟨"Dune", 1984, "SciFi"⟩ ∈ l ∧
      (approve_movie noFaults "m1" (approve_movie noFaults "m1"
          ⟨[(movieKey "m1", movieDict ⟨"Dune", 1984, "SciFi"⟩)], []⟩).2).1
        = ApproveResult.httpError 400 "Movie not found or already approved." :=
  approve_then_listed_and_second_approve_fails "m1" _ _ (by decide) (by decide)

/-- C4: in every state reachable from empty buckets by sequential fault-free
submit and approve calls (listing reads no state), a movie identifier's key
is present in at most one of the pending and final buckets. -/
theorem reachable_id_in_at_most_one_bucket (s : Store) (h : Reachable s) (id : String) :
    ¬(movieKey id ∈ bucketKeys s.pending ∧ movieKey id ∈ bucketKeys s.final) := by
  obtain ⟨-, -, hdisj, -, -⟩ := reachable_storeInv s h
  rintro ⟨hp, hf⟩
  exact hdisj _ hp hf

/-- Witness for C4: the state after one submit is reachable and keeps the
identifier out of at least one bucket. -/
theorem reachable_id_in_at_most_one_bucket_witness :
    ¬(movieKey "m1" ∈ bucketKeys (submit_movie ⟨"Dune", 1984, "SciFi"⟩ "m1" Store.empty).2.pending ∧
      movieKey "m1" ∈ bucketKeys (submit_movie ⟨"Dune", 1984, "SciFi"⟩ "m1" Store.empty).2.final) :=
  reachable_id_in_at_most_one_bucket _
    (Reachable.submit ⟨"Dune", 1984, "SciFi"⟩ "m1" Store.empty Reachable.init
      (by simp [Store.empty, bucketKeys]) (by simp [Store.empty, bucketKeys])) "m1"

/-- C5: `submit_movie` serializes the record, stores it in the pending
bucket under the key `{movie_id}.json` derived from the generated
identifier, and returns that identifier together with the confirmation
message; a fresh identifier (the uuid4 uniqueness assumption) makes the
write a brand-new entry rather than an overwrite. -/
theorem submit_writes_pending_and_returns_id (m : Movie) (id : String) (s : Store)
    (hfresh : movieKey id ∉ bucketKeys s.pending) :
    (submit_movie m id s).1 = ⟨"Movie submitted for approval.", id⟩ ∧
      getObject (submit_movie m id s).2.pending (movieKey id) = some (movieDict m) ∧
      (submit_movie m id s).2.pending = s.pending ++ [(movieKey id, movieDict m)] := by
  rw [submit_movie_eq]
  exact ⟨rfl, getObject_putObject_self _ _ _, putObject_not_mem_eq_append _ _ _ hfresh⟩

/-- Witness for C5: submitting to a store that already holds another
pending movie. -/
theorem submit_writes_pending_and_returns_id_witness :
    (submit_movie ⟨"Dune", 1984, "SciFi"⟩ "m2"
        ⟨[(movieKey "m1", movieDict ⟨"Alien", 1979, "Horror"⟩)], []⟩).1
        = ⟨"Movie submitted for approval.", "m2"⟩ ∧
      getObject (submit_movie ⟨"Dune", 1984, "SciFi"⟩ "m2"
          ⟨[(movieKey "m1", movieDict ⟨"Alien", 1979, "Horror"⟩)], []⟩).2.pending (movieKey "m2")
        = some (movieDict ⟨"Dune", 1984, "SciFi"⟩) ∧
      (submit_movie ⟨"Dune", 1984, "SciFi"⟩ "m2"
          ⟨[(movieKey "m1", movieDict ⟨"Alien", 1979, "Horror"⟩)], []⟩).2.pending
        = [(movieKey "m1", movieDict ⟨"Alien", 1979, "Horror"⟩)]
            ++ [(movieKey "m2", movieDict ⟨"Dune", 1984, "SciFi"⟩)] :=
  submit_writes_pending_and_returns_id ⟨"Dune", 1984, "SciFi"⟩ "m2" _ (by decide)

/-- C6: `submit_movie` modifies only the pending bucket — the final bucket
is exactly as before — and in an execution where approve has never been
called the `get_movies` listing is empty, so the submitted record does not
appear in it. -/
theorem submit_leaves_final_unchanged_and_unlisted (m : Movie) (id : String) (s : Store)
    (h : ReachableNoApprove s) :
    (submit_movie m id s).2.final = s.final ∧
      get_movies (submit_movie m id s).2 = some [] ∧
      ∀ l, get_movies (submit_movie m id s).2 = some l → movieDict m ∉ l := by
  have hfin : s.final = [] := reachableNoApprove_final s h
  have h0 : get_movies (submit_movie m id s).2 = some [] := by
    simp [get_movies, submit_movie, hfin, bucketKeys, getMoviesLoop]
  refine ⟨rfl, h0, ?_⟩
  intro l hl
  rw [h0] at hl
  cases hl
  simp

/-- Witness for C6: submitting to the store reached by one earlier submit. -/
theorem submit_leaves_final_unchanged_and_unlisted_witness :
    (submit_movie ⟨"Dune", 1984, "SciFi"⟩ "m2"
        (submit_movie ⟨"Alien", 1979, "Horror"⟩ "m1" Store.empty).2).2.final
      = (submit_movie ⟨"Alien", 1979, "Horror"⟩ "m1" Store.empty).2.final ∧
    get_movies (submit_movie ⟨"Dune", 1984, "SciFi"⟩ "m2"
        (submit_movie ⟨"Alien", 1979, "Horror"⟩ "m1" Store.empty).2).2 = some [] ∧
    ∀ l, get_movies (submit_movie ⟨"Dune", 1984, "SciFi"⟩ "m2"
        (submit_movie ⟨"Alien", 1979, "Horror"⟩ "m1" Store.empty).2).2 = some l →
      movieDict ⟨"Dune", 1984, "SciFi"⟩ ∉ l :=
  submit_leaves_final_unchanged_and_unlisted ⟨"Dune", 1984, "SciFi"⟩ "m2" _
    (ReachableNoApprove.submit ⟨"Alien", 1979, "Horror"⟩ "m1" Store.empty
      ReachableNoApprove.init)

/-- C7: with duplicate-free keys (which the object store's enumeration
guarantees), `get_movies` returns the deserialized body of every object of
the final bucket, in enumeration order, with no filtering; on an empty final
bucket it returns the empty sequence. -/
theorem get_movies_enumerates_final (s : Store)
    (hnd : (bucketKeys s.final).Nodup) :
    get_movies s = some (s.final.map Prod.snd) ∧
      (s.final = [] → get_movies s = some []) := by
  refine ⟨get_movies_of_nodup s hnd, ?_⟩
  intro hfin
  rw [get_movies_of_nodup s hnd, hfin]
  rfl

/-- Witness for C7: a final bucket holding two movies is listed in order. -/
theorem get_movies_enumerates_final_witness :
    get_movies ⟨[], [(movieKey "m1", movieDict ⟨"Alien", 1979, "Horror"⟩),
        (movieKey "m2", movieDict ⟨"Dune", 1984, "SciFi"⟩)]⟩
      = some ([(movieKey "m1", movieDict ⟨"Alien", 1979, "Horror"⟩),
          (movieKey "m2", movieDict ⟨"Dune", 1984, "SciFi"⟩)].map Prod.snd) ∧
    (([(movieKey "m1", movieDict ⟨"Alien", 1979, "Horror"⟩),
        (movieKey "m2", movieDict ⟨"Dune", 1984, "SciFi"⟩)] : Bucket) = [] →
      get_movies ⟨[], [(movieKey "m1", movieDict ⟨"Alien", 1979, "Horror"⟩),
          (movieKey "m2", movieDict ⟨"Dune", 1984, "SciFi"⟩)]⟩ = some []) :=
  get_movies_enumerates_final _ (by decide)

/-- C8: in every reachable state the listing succeeds and every body it
returns holds exactly the fields title, year, genre — never a movie_id
field — so a caller cannot recover the identifier of a listed movie from the
listing response. -/
theorem listed_bodies_carry_no_movie_id (s : Store) (h : Reachable s) :
    ∃ l, get_movies s = some l ∧ ∀ b ∈ l,
      b.map Prod.fst = ["title", "year", "genre"] ∧ "movie_id" ∉ b.map Prod.fst := by
  obtain ⟨-, hnd_f, -, -, hmb_f⟩ := reachable_storeInv s h
  refine ⟨s.final.map Prod.snd, get_movies_of_nodup s hnd_f, ?_⟩
  intro b hb
  obtain ⟨kv, hkv, hsnd⟩ := List.mem_map.1 hb
  obtain ⟨m, hm⟩ := hmb_f kv hkv
  rw [← hsnd, hm]
  exact ⟨rfl, by simp [movieDict]⟩

/-- Witness for C8: the reachable state after one submit and its approval. -/
theorem listed_bodies_carry_no_movie_id_witness :
    ∃ l, get_movies (approve_movie noFaults "m1"
        (submit_movie ⟨"Dune", 1984, "SciFi"⟩ "m1" Store.empty).2).2 = some l ∧
      ∀ b ∈ l, b.map Prod.fst = ["title", "year", "genre"] ∧
        "movie_id" ∉ b.map Prod.fst :=
  listed_bodies_carry_no_movie_id _
    (Reachable.approve "m1" _
      (Reachable.submit ⟨"Dune", 1984, "SciFi"⟩ "m1" Store.empty Reachable.init
        (by simp [Store.empty, bucketKeys]) (by simp [Store.empty, bucketKeys])))

/-- C9: whatever happens inside its try block, `approve_movie` either
succeeds or answers with the one HTTP 400 error
"Movie not found or already approved." — every exception of the fetch, the
copy or the delete maps to that same response; and when the copy to final
succeeds but the delete from pending fails, the caller receives that 400
error even though the record is now present in the final bucket. -/
theorem approve_maps_every_exception_to_400 (f : Faults) (id : String) (s : Store) :
    ((approve_movie f id s).1 = ApproveResult.ok "Movie approved and moved to final bucket." ∨
      (approve_movie f id s).1
        = ApproveResult.httpError 400 "Movie not found or already approved.") ∧
    (∀ b, getObject s.pending (movieKey id) = some b →
      f.getFails = false → f.putFails = false → f.deleteFails = true →
      (approve_movie f id s).1
          = ApproveResult.httpError 400 "Movie not found or already approved." ∧
        getObject (approve_movie f id s).2.final (movieKey id) = some b) := by
  constructor
  · by_cases hgf : f.getFails
    · simp [approve_movie, hgf]
    · cases hg : getObject s.pending (movieKey id) with
      | none => simp [approve_movie, hgf, hg]
      | some b =>
        by_cases hp : f.putFails
        · simp [approve_movie, hgf, hg, hp]
        · by_cases hd : f.deleteFails
          · simp [approve_movie, hgf, hg, hp, hd]
          · simp [approve_movie, hgf, hg, hp, hd]
  · intro b hb hgf hp hd
    refine ⟨?_, ?_⟩
    · simp [approve_movie, hgf, hp, hd, hb]
    · simp [approve_movie, hgf, hp, hd, hb, getObject_putObject_self]

/-- Witness for C9: copy succeeds, delete fails, on a store with one
pending movie. -/
theorem approve_maps_every_exception_to_400_witness :
    (approve_movie ⟨false, false, true⟩ "m1"
        ⟨[(movieKey "m1", movieDict ⟨"Dune", 1984, "SciFi"⟩)], []⟩).1
        = ApproveResult.httpError 400 "Movie not found or already approved." ∧
      getObject (approve_movie ⟨false, false, true⟩ "m1"
          ⟨[(movieKey "m1", movieDict ⟨"Dune", 1984, "SciFi"⟩)], []⟩).2.final (movieKey "m1")
        = some (movieDict ⟨"Dune", 1984, "SciFi"⟩) :=
  (approve_maps_every_exception_to_400 ⟨false, false, true⟩ "m1" _).2 _
    (by decide) rfl rfl rfl
